import Mathlib

/-!
Verification of the offer-matching and CTA-injection core of the
WealthAutomation repository (`affiliate_offer_library.py`), via a shallow
embedding.  Python/JSON values are modelled by `JVal` (numbers as `Int`),
Python string operations by explicit character-list functions, and the two
uses of `random.choice` by an extra index parameter `r : Nat` (the choice
picks element `r % length` of the candidate list, so theorems quantified
over `r` cover every possible draw).
-/

/-- Model of a parsed JSON / dynamic Python value.  Numbers are modelled by
`Int`; `null` also stands for Python `None` (the default of `dict.get`). -/
inductive JVal where
  | str (s : String)
  | num (n : Int)
  | list (xs : List JVal)
  | dict (kvs : List (String × JVal))
  | null

/-- Model of `isinstance(v, dict)`. -/
def JVal.isDict : JVal → Bool
  | .dict _ => true
  | _ => false

/-- Model of `isinstance(v, list)`. -/
def JVal.isList : JVal → Bool
  | .list _ => true
  | _ => false

/-- Model of `isinstance(v, str)`. -/
def JVal.isStr : JVal → Bool
  | .str _ => true
  | _ => false

/-- Return the string payload if the value is a string. -/
def JVal.asStr : JVal → Option String
  | .str s => some s
  | _ => none

/-- Model of Python truthiness (`bool(v)`): empty containers, the empty
string, zero and `None` are falsy. -/
def truthy : JVal → Bool
  | .str s => !s.isEmpty
  | .num n => n != 0
  | .list xs => !xs.isEmpty
  | .dict kvs => !kvs.isEmpty
  | .null => false

/-- Model of `d[k]` / key membership on a dict with unique keys. -/
def dictGet (kvs : List (String × JVal)) (k : String) : Option JVal :=
  (kvs.find? (fun p => p.1 == k)).map Prod.snd

/-- Model of `d.get(k, default)`. -/
def dictGetD (kvs : List (String × JVal)) (k : String) (d : JVal) : JVal :=
  (dictGet kvs k).getD d

/-- Coerce a value to a list of elements, yielding `[]` for non-lists
(mirrors the `if not isinstance(xs, list): xs = []` guards in the source). -/
def asListD : JVal → List JVal
  | .list xs => xs
  | _ => []

/-- Model of Python `str(v)` as used in f-strings.  Strings pass through and
integers print in decimal; container formatting is not modelled in detail
(no claim depends on it, every claim instantiates these slots with strings
or numbers). -/
def pyStr : JVal → String
  | .str s => s
  | .num n => toString n
  | .null => "None"
  | .list _ => "<list>"
  | .dict _ => "<dict>"

/-- Equality test for the hashable scalar values that can reach the category
set in `get_all_categories` (strings, numbers, `None`); containers are
unhashable in Python and error out before any set insertion. -/
def scalarEq : JVal → JVal → Bool
  | .str a, .str b => a == b
  | .num a, .num b => a == b
  | .null, .null => true
  | _, _ => false

/-- Model of inserting one element into a Python set represented as a
duplicate-free list in insertion order. -/
def setInsert (s : List JVal) (x : JVal) : List JVal :=
  if s.any (scalarEq x) then s else s ++ [x]

/-- Occurrence of `needle` as a contiguous run inside `hay`, on character
lists (model of the Python `in` operator on strings). -/
def containsSub (needle : List Char) : List Char → Bool
  | [] => needle.isEmpty
  | c :: rest => needle.isPrefixOf (c :: rest) || containsSub needle rest

/-- Model of Python `needle in hay` for strings. -/
def strContains (hay needle : String) : Bool :=
  containsSub needle.data hay.data

/-- Model of Python `str.lower()`, for the ASCII range exercised by the
claims (`Char.toLower` lower-cases the ASCII letters). -/
def pyLower (s : String) : String :=
  String.mk (s.data.map Char.toLower)

/-- Replace every non-overlapping occurrence of `pat` by `rep`, scanning left
to right (model of Python `str.replace` for a non-empty pattern; every
pattern in the source is a non-empty literal).  The first argument is
recursion fuel; any fuel at least the length of the scanned list gives the
replacement semantics, and `pyReplace` passes exactly that length. -/
def replaceChars (pat rep : List Char) : Nat → List Char → List Char
  | _, [] => []
  | 0, l => l
  | fuel + 1, c :: rest =>
    if !pat.isEmpty && pat.isPrefixOf (c :: rest) then
      rep ++ replaceChars pat rep fuel (rest.drop (pat.length - 1))
    else
      c :: replaceChars pat rep fuel rest

/-- Model of Python `s.replace(pat, rep)`. -/
def pyReplace (s pat rep : String) : String :=
  String.mk (replaceChars pat.data rep.data s.data.length s.data)

/-- Model of `_load_offers` after file reading and JSON parsing: `none`
stands for the `FileNotFoundError` / `JSONDecodeError` paths (both caught,
both returning `[]`); `some data` is the parsed document. -/
def load_offers (data : Option JVal) : List JVal :=
  match data with
  | none => []
  | some d =>
    match d with
    | JVal.dict kvs =>
      match dictGet kvs "offers" with
      | none => []
      | some offers_data =>
        match offers_data with
        | JVal.list xs => xs.filter JVal.isDict
        | _ => []
    | _ => []

/-- Claim-side restatement of the load contract, from the words of the spec:
an object root whose `"offers"` field is a sequence yields exactly the
record elements of that sequence, anything else yields the empty catalog. -/
def load_claim (data : Option JVal) : List JVal :=
  match data with
  | some (JVal.dict kvs) =>
    match dictGet kvs "offers" with
    | some (JVal.list xs) => xs.filter JVal.isDict
    | _ => []
  | _ => []

/-- Model of one `categories.update(value)` call in `get_all_categories`:
Python `set.update` iterates its argument, so a list contributes its
elements (erroring on unhashable elements), a string contributes its
characters, a dict its keys, and a number or `None` raises `TypeError`. -/
def pySetUpdate (acc : List JVal) (v : JVal) : Except String (List JVal) :=
  match v with
  | JVal.list xs =>
    xs.foldlM (fun a x =>
      match x with
      | JVal.list _ => Except.error "unhashable type"
      | JVal.dict _ => Except.error "unhashable type"
      | _ => Except.ok (setInsert a x)) acc
  | JVal.str s =>
    Except.ok (s.data.foldl (fun a c => setInsert a (JVal.str (String.mk [c]))) acc)
  | JVal.dict kvs =>
    Except.ok (kvs.foldl (fun a p => setInsert a (JVal.str p.1)) acc)
  | _ => Except.error "argument is not iterable"

/-- Model of `get_all_categories`: an `Except.error` value models an uncaught
Python exception escaping to the caller. -/
def get_all_categories (offers : List JVal) : Except String (List JVal) :=
  if offers.isEmpty then Except.ok []
  else
    offers.foldlM (fun acc offer =>
      match offer with
      | JVal.dict kvs => pySetUpdate acc (dictGetD kvs "categories" (JVal.list []))
      | _ => Except.ok acc) []

/-- Test from `_score_offer`: `isinstance(k, str) and k.lower() in hay`
(where `hay` is already lower-cased). -/
def isStrMatch (v : JVal) (hayLower : String) : Bool :=
  match v with
  | .str s => strContains hayLower (pyLower s)
  | _ => false

/-- One keyword loop of `_score_offer`: add `pts` for each entry whose
lower-cased string form occurs in `hay`. -/
def kwLoop (hay : String) (pts : Int) (ks : List JVal) (init : Int) : Int :=
  ks.foldl (fun s k => if isStrMatch k hay then s + pts else s) init

/-- The category loop of `_score_offer`: +1 for a body match and +3 for a
title match, independently. -/
def catLoop (hayBody hayTitle : String) (cs : List JVal) (init : Int) : Int :=
  cs.foldl (fun s c =>
    let s1 := if isStrMatch c hayBody then s + 1 else s
    if isStrMatch c hayTitle then s1 + 3 else s1) init

/-- Model of `_score_offer`. -/
def score_offer (offer : JVal) (content title : String) : Int :=
  match offer with
  | JVal.dict kvs =>
    let keywords := asListD (dictGetD kvs "keywords" (JVal.list []))
    let categories := asListD (dictGetD kvs "categories" (JVal.list []))
    let priority := dictGetD kvs "priority" (JVal.num 1)
    let s2 := kwLoop (pyLower title) 5 keywords (kwLoop (pyLower content) 2 keywords 0)
    let s3 := catLoop (pyLower content) (pyLower title) categories s2
    match priority with
    | JVal.num n => s3 + n
    | _ => s3
  | _ => 0

/-- Claim-side scoring formula, from the words of the spec: twice the number
of keyword body hits, plus five times the keyword title hits, plus the
category body hits, plus three times the category title hits, plus the
numeric priority (0 for a non-numeric priority). -/
def score_claim (kvs : List (String × JVal)) (content title : String) : Int :=
  let keywords := asListD (dictGetD kvs "keywords" (JVal.list []))
  let categories := asListD (dictGetD kvs "categories" (JVal.list []))
  2 * (keywords.countP (fun k => isStrMatch k (pyLower content)) : Int)
    + 5 * (keywords.countP (fun k => isStrMatch k (pyLower title)) : Int)
    + (categories.countP (fun c => isStrMatch c (pyLower content)) : Int)
    + 3 * (categories.countP (fun c => isStrMatch c (pyLower title)) : Int)
    + (match dictGetD kvs "priority" (JVal.num 1) with
       | JVal.num n => n
       | _ => 0)

/-- Priority of an offer as read in `match_content_to_offer`:
`offer.get("priority", 1)` for a dict, the default `1` otherwise. -/
def offerPriority : JVal → JVal
  | JVal.dict kvs => dictGetD kvs "priority" (JVal.num 1)
  | _ => JVal.num 1

/-- Priority of the running best offer:
`best_offer.get("priority", 1) if isinstance(best_offer, dict) else 1`. -/
def bestPriorityOf : Option JVal → JVal
  | some (JVal.dict bkvs) => dictGetD bkvs "priority" (JVal.num 1)
  | _ => JVal.num 1

/-- The tie-break test of `match_content_to_offer`: both priorities are
numeric and the current one is strictly higher. -/
def isNumGT : JVal → JVal → Bool
  | JVal.num p, JVal.num q => decide (q < p)
  | _, _ => false

/-- One iteration of the selection loop in `match_content_to_offer`:
non-dict items are skipped, a strictly greater score replaces the best, an
exactly equal score replaces it only under the numeric-priority tie-break.
The state is `(best_offer, highest_score)`, initially `(none, -1)`. -/
def match_loop_step (content title : String) (st : Option JVal × Int) (offer : JVal) :
    Option JVal × Int :=
  if JVal.isDict offer then
    let score := score_offer offer content title
    let cur := offerPriority offer
    let bst := bestPriorityOf st.1
    if st.2 < score then (some offer, score)
    else if score == st.2 && isNumGT cur bst then (some offer, st.2)
    else st
  else st

/-- Model of `match_content_to_offer`.  The parameter `r` models the draw of
`random.choice` in the fallback branch (the chosen index is `r` modulo the
number of candidates). -/
def match_content_to_offer (r : Nat) (offers : List JVal) (content title : String) :
    Option JVal :=
  match offers with
  | [] => none
  | _ :: _ =>
    let st := offers.foldl (match_loop_step content title) (none, -1)
    let bestIsDict := match st.1 with
      | some b => JVal.isDict b
      | none => false
    if bestIsDict && decide (0 < st.2) then st.1
    else
      match offers.filter JVal.isDict with
      | [] => none
      | v :: vs => some ((v :: vs).getD (r % (v :: vs).length) JVal.null)

/-- Claim-side step of the selection algorithm, from the words of the spec:
the first offer seen becomes the running best; a strictly greater score
replaces the best; an exactly equal score replaces it only when both
priorities are numeric and the current one is strictly higher; first-seen
wins otherwise. -/
def select_claim_step (content title : String) (acc : Option (JVal × Int)) (offer : JVal) :
    Option (JVal × Int) :=
  let score := score_offer offer content title
  match acc with
  | none => some (offer, score)
  | some (b, hs) =>
    if hs < score then some (offer, score)
    else if score == hs && isNumGT (offerPriority offer) (offerPriority b) then
      some (offer, hs)
    else some (b, hs)

/-- Claim-side running best over the whole catalog. -/
def select_claim (content title : String) (offers : List JVal) : Option (JVal × Int) :=
  offers.foldl (select_claim_step content title) none

/-- Valid CTA templates of an offer: the string-typed entries of a
sequence-typed `ctaTemplates` field, in order. -/
def valid_templates_of (kvs : List (String × JVal)) : List String :=
  match dictGet kvs "ctaTemplates" with
  | some (JVal.list ts) => ts.filterMap JVal.asStr
  | _ => []

/-- The offer URL as read in `generate_cta_html`: `offer.get("url", "#")`
with a fallback to `"#"` for a non-string value. -/
def offer_url_of (kvs : List (String × JVal)) : String :=
  match dictGetD kvs "url" (JVal.str "#") with
  | JVal.str s => s
  | _ => "#"

/-- The tracked URL built in `generate_cta_html`: the offer URL, a query
separator depending on whether the URL already contains `?`, and the fixed
UTM parameters with the offer id as campaign. -/
def tracked_url_of (kvs : List (String × JVal)) : String :=
  let u := offer_url_of kvs
  let separator := if strContains u "?" then "&" else "?"
  u ++ separator ++ "utm_source=wealthautomation&utm_medium=blog&utm_campaign="
    ++ pyStr (dictGetD kvs "id" (JVal.str "offer"))

/-- Claim-side tracked-URL formula, from the words of the spec. -/
def tracked_url_claim (url campaign : String) : String :=
  url ++ (if strContains url "?" then "&" else "?")
    ++ "utm_source=wealthautomation&utm_medium=blog&utm_campaign=" ++ campaign

/-- Model of `generate_cta_html`.  The guard mirrors
`if not cta_templates or not isinstance(cta_templates, list) or not
cta_templates: return ""`, the template choice is `random.choice` on the
string-typed templates (modelled by index `r`), and the placeholder
`{{url}}` (written with escaped braces) is replaced everywhere by the
tracked URL. -/
def generate_cta_html (r : Nat) (offer : JVal) : String :=
  match offer with
  | JVal.dict kvs =>
    let cta_templates := dictGetD kvs "ctaTemplates" JVal.null
    if !truthy cta_templates || !JVal.isList cta_templates || !truthy cta_templates then ""
    else
      match (asListD cta_templates).filterMap JVal.asStr with
      | [] => ""
      | v :: vs =>
        let template := (v :: vs).getD (r % (v :: vs).length) ""
        pyReplace template "\x7b\x7burl\x7d\x7d" (tracked_url_of kvs)
  | _ => ""

/-- The invalid-templates condition of the claims: `ctaTemplates` missing,
not a sequence, empty, or containing no string-typed entry. -/
def templatesInvalid (kvs : List (String × JVal)) : Bool :=
  match dictGet kvs "ctaTemplates" with
  | some (JVal.list ts) => ts.all (fun t => !JVal.isStr t)
  | some _ => true
  | none => true

/-- Whitespace class of the delimiter pattern (the `\s` of the regular
expression `(</p>\s*)`), restricted to its ASCII members. -/
def isSpaceRe (c : Char) : Bool :=
  c = ' ' || c = '\t' || c = '\n' || c = '\r' || c = '\x0b' || c = '\x0c'

/-- Scanner behind `re.split(r"(</p>\s*)", content, flags=re.IGNORECASE)`:
returns the text before the first delimiter and the (delimiter, following
text) pairs, scanning left to right; each delimiter is a closing paragraph
tag (with `p` or `P`) followed by the maximal run of whitespace.  The first
argument is recursion fuel; any fuel at least the length of the scanned
list gives the scanner semantics, and `splitPara` passes exactly that
length. -/
def splitParaAux : Nat → List Char → List Char → String × List (String × String)
  | _, [], acc => (String.mk acc.reverse, [])
  | 0, s, acc => (String.mk (acc.reverse ++ s), [])
  | fuel + 1, '<' :: '/' :: c :: '>' :: rest, acc =>
    if c == 'p' || c == 'P' then
      let ws := rest.takeWhile isSpaceRe
      let rest2 := rest.dropWhile isSpaceRe
      let r := splitParaAux fuel rest2 []
      (String.mk acc.reverse, (String.mk ('<' :: '/' :: c :: '>' :: ws), r.1) :: r.2)
    else
      splitParaAux fuel ('/' :: c :: '>' :: rest) ('<' :: acc)
  | fuel + 1, ch :: rest, acc => splitParaAux fuel rest (ch :: acc)

/-- Flatten the (delimiter, text) pairs into the alternating segment list
produced by `re.split` with a capturing group. -/
def pairsFlat : List (String × String) → List String
  | [] => []
  | p :: ps => p.1 :: p.2 :: pairsFlat ps

/-- The full segment list of `re.split(r"(</p>\s*)", content, re.IGNORECASE)`:
text and delimiter segments alternate and the length is always odd. -/
def splitPara (content : String) : List String :=
  (splitParaAux content.data.length content.data []).1
    :: pairsFlat (splitParaAux content.data.length content.data []).2

/-- A closing-paragraph delimiter segment: `</p>` (case-insensitive in `p`)
followed only by whitespace. -/
def isCloseParaDelim (d : String) : Bool :=
  match d.data with
  | '<' :: '/' :: c :: '>' :: ws => (c == 'p' || c == 'P') && ws.all isSpaceRe
  | _ => false

/-- The midpoint computation of the `middle` branch of
`inject_cta_into_content`: the segment count divided by 2, stepped back by
one when that quotient is even. -/
def middleIndex (n : Nat) : Nat :=
  if (n / 2) % 2 == 0 then n / 2 - 1 else n / 2

/-- Model of Python `list.insert(i, x)` (insert before position `i`,
append when `i` is past the end). -/
def pyInsert (i : Nat) (x : String) (l : List String) : List String :=
  l.take i ++ x :: l.drop i

/-- Model of `inject_cta_into_content`. -/
def inject_cta_into_content (r : Nat) (content : String) (offer : JVal)
    (position : String) : String :=
  match offer with
  | JVal.dict _ =>
    let cta_html := generate_cta_html r offer
    if cta_html = "" then content
    else
      let cta_wrapper := "<div class=\"wealthautomation-cta\">" ++ cta_html ++ "</div>"
      if position = "end" then content ++ "\n\n" ++ cta_wrapper
      else if position = "middle" then
        let paragraphs := splitPara content
        if 3 < paragraphs.length then
          String.join (pyInsert (middleIndex paragraphs.length + 1) cta_wrapper paragraphs)
        else content ++ "\n\n" ++ cta_wrapper
      else if position = "start" then cta_wrapper ++ "\n\n" ++ content
      else content ++ "\n\n" ++ cta_wrapper
  | _ => content

/-- Model of `log_offer_usage` with the timestamp as a parameter: the line
appended to the usage CSV for a record offer, `none` for a non-record offer
(no line is written). -/
def log_usage_line (ts : String) (offer : JVal) (content_title content_type : String) :
    Option String :=
  match offer with
  | JVal.dict kvs =>
    let offer_id := dictGetD kvs "id" (JVal.str "N/A")
    let offer_name := dictGetD kvs "name" (JVal.str "N/A")
    let safe_title := pyReplace (pyReplace content_title "\"" "") "," ";"
    let quoted_offer_name := "\"" ++ pyReplace (pyStr offer_name) "\"" "\"\"" ++ "\""
    let quoted_safe_title := "\"" ++ pyReplace safe_title "\"" "\"\"" ++ "\""
    some (ts ++ "," ++ pyStr offer_id ++ "," ++ quoted_offer_name ++ ","
      ++ content_type ++ "," ++ quoted_safe_title ++ "\n")
  | _ => none

/-- Claim-side usage-record format, from the words of the spec: timestamp,
offer id, offer name quoted with internal double quotes doubled, content
type, content title quoted with commas replaced by semicolons and internal
double quotes doubled. -/
def usage_line_claim (ts offer_id offer_name content_type content_title : String) : String :=
  ts ++ "," ++ offer_id ++ ","
    ++ "\"" ++ pyReplace offer_name "\"" "\"\"" ++ "\"" ++ ","
    ++ content_type ++ ","
    ++ "\"" ++ pyReplace (pyReplace content_title "," ";") "\"" "\"\"" ++ "\"" ++ "\n"

/-- Amended usage-record format: as the claim, except that internal double
quotes in the content title are removed (the source strips them before the
comma replacement, so the later quote-doubling never fires on the title). -/
def usage_line_amended (ts offer_id offer_name content_type content_title : String) : String :=
  ts ++ "," ++ offer_id ++ ","
    ++ ("\"" ++ pyReplace offer_name "\"" "\"\"" ++ "\"") ++ ","
    ++ content_type ++ ","
    ++ ("\"" ++ pyReplace (pyReplace content_title "\"" "") "," ";" ++ "\"") ++ "\n"

/-- Simulation invariant between the selection-loop state of the source
(`(best_offer, highest_score)`, initialised to `(none, -1)`) and the
claim-side running best: either the two agree, or the source state is still
the initial sentinel while the claim-side best (if any) has score at most
`-1` (a region that cannot produce a final best score above 0). -/
def SelInv (cs : Option JVal × Int) (ss : Option (JVal × Int)) : Prop :=
  (∃ o s, cs = (some o, s) ∧ ss = some (o, s) ∧ JVal.isDict o = true)
    ∨ (cs = (none, -1) ∧ (ss = none ∨ ∃ o s, ss = some (o, s) ∧ s ≤ -1))

lemma kwLoop_eq (hay : String) (pts : Int) :
    ∀ (ks : List JVal) (init : Int),
      kwLoop hay pts ks init = init + pts * (ks.countP (fun k => isStrMatch k hay) : Int) := by
  intro ks
  induction ks with
  | nil => intro init; simp [kwLoop]
  | cons k tl ih =>
    intro init
    simp only [kwLoop] at ih ⊢
    rw [List.foldl_cons]
    rcases Bool.eq_false_or_eq_true (isStrMatch k hay) with h | h <;>
      · simp only [h, if_true, if_false, List.countP_cons]
        rw [ih]
        push_cast
        ring

lemma catLoop_eq (hayBody hayTitle : String) :
    ∀ (cs : List JVal) (init : Int),
      catLoop hayBody hayTitle cs init =
        init + (cs.countP (fun c => isStrMatch c hayBody) : Int)
          + 3 * (cs.countP (fun c => isStrMatch c hayTitle) : Int) := by
  intro cs
  induction cs with
  | nil => intro init; simp [catLoop]
  | cons c tl ih =>
    intro init
    simp only [catLoop] at ih ⊢
    rw [List.foldl_cons]
    rcases Bool.eq_false_or_eq_true (isStrMatch c hayBody) with h1 | h1 <;>
      rcases Bool.eq_false_or_eq_true (isStrMatch c hayTitle) with h2 | h2 <;>
      · simp only [h1, h2, if_true, if_false, List.countP_cons]
        rw [ih]
        push_cast
        ring

/-- The scoring function on a record equals the additive claim-side formula. -/
lemma score_offer_dict_eq (kvs : List (String × JVal)) (content title : String) :
    score_offer (JVal.dict kvs) content title = score_claim kvs content title := by
  simp only [score_offer, score_claim, kwLoop_eq, catLoop_eq]
  cases dictGetD kvs "priority" (JVal.num 1) <;> push_cast <;> ring

/-- C1: for every structurally valid offer record and every content body and
title string, `score(offer, body, title)` equals 2 times the number of
string-typed keyword entries whose lower-cased form is a substring of the
lower-cased body, plus 5 times the number matching the lower-cased title,
plus 1 per string-typed category matching the body and 3 per category
matching the title, plus the numeric priority (0 contribution if the
priority is non-numeric); a non-record offer scores 0. -/
theorem C1_score_formula (offer : JVal) (content title : String) :
    score_offer offer content title =
      match offer with
      | JVal.dict kvs => score_claim kvs content title
      | _ => 0 := by
  cases offer <;> first
    | rfl
    | exact score_offer_dict_eq _ content title

lemma priorityNum_le_score (kvs : List (String × JVal)) (content title : String) (q : Int)
    (h : dictGetD kvs "priority" (JVal.num 1) = JVal.num q) :
    q ≤ score_offer (JVal.dict kvs) content title := by
  rw [score_offer_dict_eq]
  simp only [score_claim, h]
  omega

lemma bestPriorityOf_some (b : JVal) : bestPriorityOf (some b) = offerPriority b := by
  cases b <;> rfl

lemma not_tie_at_init (o : JVal) (content title : String)
    (h : isNumGT (offerPriority o) (JVal.num 1) = true) :
    score_offer o content title ≠ -1 := by
  cases o
  case dict kvs =>
    have hq : ∃ q : Int, dictGetD kvs "priority" (JVal.num 1) = JVal.num q ∧ 1 < q := by
      simp only [offerPriority] at h
      cases hp : dictGetD kvs "priority" (JVal.num 1) <;> rw [hp] at h
      case num n => exact ⟨n, rfl, by simpa [isNumGT] using h⟩
      all_goals simp [isNumGT] at h
    obtain ⟨q, hq, h1q⟩ := hq
    have := priorityNum_le_score kvs content title q hq
    omega
  all_goals simp [offerPriority, isNumGT] at h

lemma selinv_step (content title : String) (cs : Option JVal × Int)
    (ss : Option (JVal × Int)) (o : JVal) (ho : JVal.isDict o = true)
    (h : SelInv cs ss) :
    SelInv (match_loop_step content title cs o) (select_claim_step content title ss o) := by
  rcases h with ⟨b, s, hcs, hss, hbd⟩ | ⟨hcs, hss⟩
  · subst hcs; subst hss
    simp only [match_loop_step, select_claim_step, ho, if_true, bestPriorityOf_some]
    by_cases h1 : s < score_offer o content title
    · rw [if_pos h1, if_pos h1]
      exact Or.inl ⟨o, _, rfl, rfl, ho⟩
    · rw [if_neg h1, if_neg h1]
      by_cases h2 : (score_offer o content title == s
          && isNumGT (offerPriority o) (offerPriority b)) = true
      · rw [if_pos h2, if_pos h2]
        exact Or.inl ⟨o, s, rfl, rfl, ho⟩
      · rw [if_neg h2, if_neg h2]
        exact Or.inl ⟨b, s, rfl, rfl, hbd⟩
  · subst hcs
    have hcode : ∀ hcond : ¬ ((-1 : Int) < score_offer o content title),
        match_loop_step content title (none, -1) o = (none, -1) := by
      intro hcond
      simp only [match_loop_step, ho, if_true, bestPriorityOf]
      rw [if_neg hcond, if_neg]
      intro hc
      rw [Bool.and_eq_true, beq_iff_eq] at hc
      exact not_tie_at_init o content title hc.2 hc.1
    rcases hss with hss | ⟨b, s, hss, hle⟩
    · subst hss
      simp only [select_claim_step]
      by_cases h1 : (-1 : Int) < score_offer o content title
      · simp only [match_loop_step, ho, if_true]
        rw [if_pos h1]
        exact Or.inl ⟨o, _, rfl, rfl, ho⟩
      · rw [hcode h1]
        exact Or.inr ⟨rfl, Or.inr ⟨o, _, rfl, by omega⟩⟩
    · subst hss
      simp only [select_claim_step]
      by_cases h1 : (-1 : Int) < score_offer o content title
      · simp only [match_loop_step, ho, if_true]
        rw [if_pos h1, if_pos (by omega : s < score_offer o content title)]
        exact Or.inl ⟨o, _, rfl, rfl, ho⟩
      · rw [hcode h1]
        refine Or.inr ⟨rfl, Or.inr ?_⟩
        by_cases h2 : s < score_offer o content title
        · exact ⟨o, _, by rw [if_pos h2], by omega⟩
        · rw [if_neg h2]
          by_cases h3 : (score_offer o content title == s
              && isNumGT (offerPriority o) (offerPriority b)) = true
          · exact ⟨o, s, by rw [if_pos h3], hle⟩
          · exact ⟨b, s, by rw [if_neg h3], hle⟩

lemma selinv_fold (content title : String) :
    ∀ (l : List JVal), l.all JVal.isDict = true → ∀ cs ss, SelInv cs ss →
      SelInv (l.foldl (match_loop_step content title) cs)
        (l.foldl (select_claim_step content title) ss) := by
  intro l
  induction l with
  | nil => intro _ cs ss h; simpa using h
  | cons o tl ih =>
    intro hall cs ss h
    simp only [List.all_cons, Bool.and_eq_true] at hall
    simp only [List.foldl_cons]
    exact ih hall.2 _ _ (selinv_step content title cs ss o hall.1 h)

lemma match_returns_best (r : Nat) (v : JVal) (tl : List JVal) (content title : String)
    (b : JVal) (s : Int)
    (hfold : (v :: tl).foldl (match_loop_step content title) (none, -1) = (some b, s))
    (hbd : JVal.isDict b = true) (hpos : 0 < s) :
    match_content_to_offer r (v :: tl) content title = some b := by
  simp only [match_content_to_offer]
  rw [hfold]
  simp [hbd, hpos]

/-- C2: for every non-empty catalog of offer records, the selection loop
tracks the running best by strictly greater score, replacing it on an equal
score only when both priorities are numeric and the current one is strictly
higher (first-seen wins otherwise); if the best score found is strictly
greater than 0, that best offer is returned, for every random draw. -/
theorem C2_best_offer_returned (offers : List JVal) (content title : String)
    (b : JVal) (s : Int)
    (hne : offers ≠ []) (hrec : offers.all JVal.isDict = true)
    (hspec : select_claim content title offers = some (b, s)) (hpos : 0 < s) :
    ∀ r, match_content_to_offer r offers content title = some b := by
  intro r
  have hinv := selinv_fold content title offers hrec (none, -1) none
    (Or.inr ⟨rfl, Or.inl rfl⟩)
  have hspec2 : offers.foldl (select_claim_step content title) none = some (b, s) := hspec
  rw [hspec2] at hinv
  rcases hinv with ⟨o, s2, hcs, hss, hod⟩ | ⟨hcs, hss⟩
  · rw [Option.some_inj] at hss
    have hbo : o = b := (congrArg Prod.fst hss).symm
    have hs2 : s2 = s := (congrArg Prod.snd hss).symm
    subst hbo; subst hs2
    cases offers with
    | nil => exact absurd rfl hne
    | cons v tl => exact match_returns_best r v tl content title o s2 hcs hod hpos
  · rcases hss with hss | ⟨o, s2, hss, hle⟩
    · exact absurd hss (by simp)
    · rw [Option.some_inj] at hss
      have : s = s2 := congrArg Prod.snd hss
      omega

lemma step_hs_le (content title : String) (st : Option JVal × Int) (o : JVal)
    (hsc : score_offer o content title ≤ 0) (hst : st.2 ≤ 0) :
    (match_loop_step content title st o).2 ≤ 0 := by
  simp only [match_loop_step]
  by_cases hd : JVal.isDict o = true
  · rw [if_pos hd]
    split_ifs with h1 h2
    · exact hsc
    · exact hst
    · exact hst
  · rw [if_neg hd]
    exact hst

lemma step_hs_mono (content title : String) (st : Option JVal × Int) (o : JVal) :
    st.2 ≤ (match_loop_step content title st o).2 := by
  simp only [match_loop_step]
  by_cases hd : JVal.isDict o = true
  · rw [if_pos hd]
    split_ifs with h1 h2
    · exact le_of_lt h1
    · exact le_refl _
    · exact le_refl _
  · rw [if_neg hd]

lemma step_hs_ge_self (content title : String) (st : Option JVal × Int) (o : JVal)
    (hd : JVal.isDict o = true) :
    score_offer o content title ≤ (match_loop_step content title st o).2 := by
  simp only [match_loop_step]
  rw [if_pos hd]
  split_ifs with h1 h2
  · exact le_refl _
  · show score_offer o content title ≤ st.2
    omega
  · show score_offer o content title ≤ st.2
    omega

lemma fold_hs_mono (content title : String) :
    ∀ (l : List JVal) (st : Option JVal × Int),
      st.2 ≤ (l.foldl (match_loop_step content title) st).2 := by
  intro l
  induction l with
  | nil => intro st; simp
  | cons o tl ih =>
    intro st
    simp only [List.foldl_cons]
    exact le_trans (step_hs_mono content title st o) (ih _)

lemma fold_hs_le (content title : String) :
    ∀ (l : List JVal), (∀ o ∈ l, score_offer o content title ≤ 0) →
      ∀ st : Option JVal × Int, st.2 ≤ 0 →
        (l.foldl (match_loop_step content title) st).2 ≤ 0 := by
  intro l
  induction l with
  | nil => intro _ st h; simpa using h
  | cons o tl ih =>
    intro hall st hst
    simp only [List.foldl_cons]
    exact ih (fun x hx => hall x (List.mem_cons_of_mem _ hx)) _
      (step_hs_le content title st o (hall o (List.mem_cons_self _ _)) hst)

lemma fold_hs_ge_mem (content title : String) :
    ∀ (l : List JVal) (st : Option JVal × Int) (o : JVal), o ∈ l →
      JVal.isDict o = true →
      score_offer o content title ≤ (l.foldl (match_loop_step content title) st).2 := by
  intro l
  induction l with
  | nil => intro st o h; simp at h
  | cons v tl ih =>
    intro st o hmem hd
    simp only [List.foldl_cons]
    rcases List.mem_cons.mp hmem with rfl | hmem
    · exact le_trans (step_hs_ge_self content title st o hd) (fold_hs_mono content title tl _)
    · exact ih _ o hmem hd

lemma fold_shape (content title : String) :
    ∀ (l : List JVal) (st : Option JVal × Int),
      ((st.1 = none ∧ st.2 = -1) ∨ ∃ d, st.1 = some d ∧ JVal.isDict d = true) →
      ((l.foldl (match_loop_step content title) st).1 = none
          ∧ (l.foldl (match_loop_step content title) st).2 = -1)
        ∨ ∃ d, (l.foldl (match_loop_step content title) st).1 = some d
          ∧ JVal.isDict d = true := by
  intro l
  induction l with
  | nil => intro st h; simpa using h
  | cons o tl ih =>
    intro st h
    simp only [List.foldl_cons]
    refine ih _ ?_
    simp only [match_loop_step]
    by_cases hd : JVal.isDict o = true
    · rw [if_pos hd]
      split_ifs <;> first
        | exact Or.inr ⟨o, rfl, hd⟩
        | exact h
    · rw [if_neg hd]
      exact h

lemma getD_mem_of_lt {α : Type} (l : List α) (n : Nat) (d : α) (h : n < l.length) :
    l.getD n d ∈ l := by
  induction l generalizing n with
  | nil => simp at h
  | cons a tl ih =>
    cases n with
    | zero => simp
    | succ m =>
      simp only [List.getD_cons_succ]
      exact List.mem_cons_of_mem _ (ih m (by simpa using h))

/-- C3: selection on an empty catalog returns `none`; selection on a
non-empty catalog of records in which every offer scores at most 0 returns
some member of the catalog through the random fallback, never `none`. -/
theorem C3_empty_none_and_fallback (offers : List JVal) (content title : String) (r : Nat)
    (hne : offers ≠ []) (hdict : offers.all JVal.isDict = true)
    (hz : ∀ o ∈ offers, score_offer o content title ≤ 0) :
    (∀ r2 c2 t2, match_content_to_offer r2 [] c2 t2 = none) ∧
    ∃ o, match_content_to_offer r offers content title = some o ∧ o ∈ offers := by
  refine ⟨fun r2 c2 t2 => rfl, ?_⟩
  cases offers with
  | nil => exact absurd rfl hne
  | cons v tl =>
    have hle : ((v :: tl).foldl (match_loop_step content title) (none, -1)).2 ≤ 0 :=
      fold_hs_le content title (v :: tl) hz (none, -1) (by norm_num)
    have hfe : (v :: tl).filter JVal.isDict = v :: tl :=
      List.filter_eq_self.mpr (fun a ha => (List.all_eq_true.mp hdict) a ha)
    have hlen : 0 < (v :: tl).length := by simp
    have hmod : r % (v :: tl).length < (v :: tl).length := Nat.mod_lt r hlen
    refine ⟨(v :: tl).getD (r % (v :: tl).length) JVal.null, ?_, getD_mem_of_lt _ _ _ hmod⟩
    simp only [match_content_to_offer]
    rw [if_neg, hfe]
    intro hc
    rw [Bool.and_eq_true, decide_eq_true_eq] at hc
    omega

/-- C10 (implicit): an offer record with no `priority` field scores at least
1 (the default priority 1 is numeric and always added), so a catalog
containing such a record always resolves through the relevant-match branch
(final best score strictly positive, result independent of the random
draw); the random fallback is never taken. -/
theorem C10_default_priority_no_fallback (offers : List JVal) (content title : String)
    (kvs : List (String × JVal))
    (hmem : JVal.dict kvs ∈ offers) (hprio : dictGet kvs "priority" = none) :
    1 ≤ score_offer (JVal.dict kvs) content title ∧
    ∃ best hs,
      offers.foldl (match_loop_step content title) (none, -1) = (some best, hs)
        ∧ 0 < hs ∧ JVal.isDict best = true
        ∧ ∀ r, match_content_to_offer r offers content title = some best := by
  have hsc : 1 ≤ score_offer (JVal.dict kvs) content title :=
    priorityNum_le_score kvs content title 1 (by simp [dictGetD, hprio])
  refine ⟨hsc, ?_⟩
  cases offers with
  | nil => simp at hmem
  | cons v tl =>
    have hge := fold_hs_ge_mem content title (v :: tl) (none, -1) (JVal.dict kvs) hmem rfl
    have hshape := fold_shape content title (v :: tl) (none, -1) (Or.inl ⟨rfl, rfl⟩)
    rcases hshape with ⟨h1, h2⟩ | ⟨d, h1, h2⟩
    · omega
    · have hpair : (v :: tl).foldl (match_loop_step content title) (none, -1) =
          (some d, ((v :: tl).foldl (match_loop_step content title) (none, -1)).2) := by
        rw [← h1]
      refine ⟨d, _, hpair, by omega, h2, fun r => ?_⟩
      exact match_returns_best r v tl content title d _ hpair h2 (by omega)

/-- C4: the catalog load never throws: a missing file, unparseable document,
non-object root, missing `"offers"` field or non-sequence `"offers"` value
all yield the empty catalog, and otherwise exactly the record elements of
the `"offers"` sequence are kept, in their original order (a sublist of the
raw sequence), skipping non-record elements without aborting. -/
theorem C4_load_never_throws (data : Option JVal) :
    load_offers data = load_claim data ∧
    (∀ kvs xs, data = some (JVal.dict kvs) →
      dictGet kvs "offers" = some (JVal.list xs) →
      List.Sublist (load_offers data) xs
        ∧ ∀ o ∈ load_offers data, JVal.isDict o = true) := by
  constructor
  · cases data with
    | none => rfl
    | some d =>
      cases d <;> try rfl
      case dict kvs =>
        simp only [load_offers, load_claim]
        cases h : dictGet kvs "offers" with
        | none => rfl
        | some v => cases v <;> rfl
  · intro kvs xs hd ho
    subst hd
    simp only [load_offers, ho]
    exact ⟨List.filter_sublist _, fun o homem => List.of_mem_filter homem⟩

lemma generate_eq (r : Nat) (kvs : List (String × JVal)) :
    generate_cta_html r (JVal.dict kvs) =
      match valid_templates_of kvs with
      | [] => ""
      | v :: vs =>
        pyReplace ((v :: vs).getD (r % (v :: vs).length) "") "\x7b\x7burl\x7d\x7d"
          (tracked_url_of kvs) := by
  cases h : dictGet kvs "ctaTemplates" with
  | none => simp [generate_cta_html, valid_templates_of, dictGetD, h, truthy]
  | some v =>
    cases v with
    | list ts =>
      cases ts with
      | nil => simp [generate_cta_html, valid_templates_of, dictGetD, h, truthy]
      | cons t ts2 =>
        simp [generate_cta_html, valid_templates_of, dictGetD, h, truthy, asListD,
          JVal.isList]
    | str s => simp [generate_cta_html, valid_templates_of, dictGetD, h, truthy, JVal.isList]
    | num n =>
      by_cases hn : n = 0 <;>
        simp [generate_cta_html, valid_templates_of, dictGetD, h, truthy, JVal.isList, hn]
    | dict kvs2 => simp [generate_cta_html, valid_templates_of, dictGetD, h, truthy, JVal.isList]
    | null => simp [generate_cta_html, valid_templates_of, dictGetD, h, truthy, JVal.isList]

/-- C7: when `ctaTemplates` is missing, not a sequence, empty, or contains
no string-typed template, the renderer returns the empty string without
raising, and injection returns the original content unchanged for every
position. -/
theorem C7_no_templates_noop (r : Nat) (kvs : List (String × JVal))
    (content position : String) (h : templatesInvalid kvs = true) :
    generate_cta_html r (JVal.dict kvs) = "" ∧
    inject_cta_into_content r content (JVal.dict kvs) position = content := by
  have hval : valid_templates_of kvs = [] := by
    simp only [templatesInvalid] at h
    simp only [valid_templates_of]
    cases hg : dictGet kvs "ctaTemplates" with
    | none => rfl
    | some v =>
      cases v <;> try rfl
      case list ts =>
        rw [hg] at h
        rw [List.filterMap_eq_nil_iff]
        intro a ha
        have := List.all_eq_true.mp h a ha
        cases a <;> simp_all [JVal.asStr, JVal.isStr]
  have hg : generate_cta_html r (JVal.dict kvs) = "" := by
    rw [generate_eq, hval]
  refine ⟨hg, ?_⟩
  simp [inject_cta_into_content, hg]

/-- C6: the tracked URL equals the offer URL (with the `"#"` default for a
missing or non-string `url` field) followed by `&` if the URL contains `?`
and `?` otherwise, then the fixed UTM parameters ending in the offer id
(default `"offer"`); every occurrence of the `{{url}}` placeholder in the
chosen template is replaced by this tracked URL. -/
theorem C6_tracked_url (kvs : List (String × JVal)) (r : Nat) :
    tracked_url_of kvs =
      tracked_url_claim (offer_url_of kvs) (pyStr (dictGetD kvs "id" (JVal.str "offer"))) ∧
    (∀ u, dictGet kvs "url" = some (JVal.str u) → offer_url_of kvs = u) ∧
    (dictGet kvs "url" = none → offer_url_of kvs = "#") ∧
    (∀ v, dictGet kvs "url" = some v → JVal.isStr v = false → offer_url_of kvs = "#") ∧
    (∀ i, dictGet kvs "id" = some (JVal.str i) →
      pyStr (dictGetD kvs "id" (JVal.str "offer")) = i) ∧
    (dictGet kvs "id" = none → pyStr (dictGetD kvs "id" (JVal.str "offer")) = "offer") ∧
    (∀ v vs, valid_templates_of kvs = v :: vs →
      generate_cta_html r (JVal.dict kvs) =
        pyReplace ((v :: vs).getD (r % (v :: vs).length) "") "\x7b\x7burl\x7d\x7d"
          (tracked_url_of kvs)) := by
  refine ⟨rfl, ?_, ?_, ?_, ?_, ?_, ?_⟩
  · intro u h; simp [offer_url_of, dictGetD, h]
  · intro h; simp [offer_url_of, dictGetD, h]
  · intro v h hv
    cases v <;> simp_all [offer_url_of, dictGetD, JVal.isStr]
  · intro i h; simp [dictGetD, h, pyStr]
  · intro h; simp [dictGetD, h, pyStr]
  · intro v vs h
    rw [generate_eq, h]

lemma pairsFlat_length (ps : List (String × String)) :
    (pairsFlat ps).length = 2 * ps.length := by
  induction ps with
  | nil => simp [pairsFlat]
  | cons p tl ih => simp [pairsFlat, ih]; omega

lemma splitParaAux_delims (fuel : Nat) (s acc : List Char) :
    ∀ p ∈ (splitParaAux fuel s acc).2, isCloseParaDelim p.1 = true := by
  induction fuel, s, acc using splitParaAux.induct with
  | case1 t acc => simp [splitParaAux.eq_1]
  | case2 s acc h =>
    cases s with
    | nil => exact absurd rfl (fun he => h he)
    | cons c rest => simp [splitParaAux.eq_2 (c :: rest) acc h]
  | case3 fuel c rest acc hc rest2 ih =>
    intro p hp
    rw [splitParaAux.eq_3, if_pos hc] at hp
    rcases List.mem_cons.mp hp with rfl | hp2
    · simp only [isCloseParaDelim]
      rw [Bool.and_eq_true]
      refine ⟨hc, List.all_eq_true.mpr (fun a ha => ?_)⟩
      exact List.mem_takeWhile_imp ha
    · exact ih p hp2
  | case4 fuel c rest acc hc ih =>
    intro p hp
    rw [splitParaAux.eq_3, if_neg hc] at hp
    exact ih p hp
  | case5 fuel ch rest acc h ih =>
    intro p hp
    rw [splitParaAux.eq_4 acc fuel ch rest h] at hp
    exact ih p hp

lemma splitPara_length_odd (content : String) : (splitPara content).length % 2 = 1 := by
  simp only [splitPara, List.length_cons, pairsFlat_length]
  omega

lemma pairsFlat_getD (ps : List (String × String)) (k : Nat) (h : k < ps.length) :
    (pairsFlat ps).getD (2 * k) "" = (ps.getD k ("", "")).1 := by
  induction ps generalizing k with
  | nil => simp at h
  | cons p tl ih =>
    cases k with
    | zero => simp [pairsFlat]
    | succ m =>
      have h2 : 2 * (m + 1) = 2 * m + 1 + 1 := by ring
      rw [h2]
      simp only [pairsFlat, List.getD_cons_succ]
      exact ih m (by simpa using h)

lemma splitPara_delim_at_odd (content : String) (i : Nat) (hodd : i % 2 = 1)
    (hlt : i < (splitPara content).length) :
    isCloseParaDelim ((splitPara content).getD i "") = true := by
  obtain ⟨k, rfl⟩ : ∃ k, i = 2 * k + 1 := ⟨i / 2, by omega⟩
  simp only [splitPara] at hlt ⊢
  rw [List.getD_cons_succ]
  have hk2 : k < (splitParaAux content.data.length content.data []).2.length := by
    simp only [List.length_cons, pairsFlat_length] at hlt
    omega
  rw [pairsFlat_getD _ _ hk2]
  exact splitParaAux_delims content.data.length content.data [] _ (getD_mem_of_lt _ _ _ hk2)

/-- C5: with position `middle`, the content is split on closing-paragraph
tags (case-insensitively) with the delimiters kept as separate segments;
when the split yields more than 3 segments, the midpoint index (segment
count divided by 2, stepped back by one when even) is odd, in range, lands
on a closing-paragraph delimiter, and the wrapped CTA is inserted
immediately after that segment before rejoining; with 3 or fewer segments
the result equals the end-position behaviour (content, blank line, wrapped
CTA). -/
theorem C5_middle_injection (r : Nat) (content : String) (kvs : List (String × JVal))
    (hcta : generate_cta_html r (JVal.dict kvs) ≠ "") :
    (3 < (splitPara content).length →
      middleIndex (splitPara content).length % 2 = 1
      ∧ middleIndex (splitPara content).length < (splitPara content).length
      ∧ isCloseParaDelim
          ((splitPara content).getD (middleIndex (splitPara content).length) "") = true
      ∧ inject_cta_into_content r content (JVal.dict kvs) "middle" =
          String.join (pyInsert (middleIndex (splitPara content).length + 1)
            ("<div class=\"wealthautomation-cta\">"
              ++ generate_cta_html r (JVal.dict kvs) ++ "</div>")
            (splitPara content))) ∧
    ((splitPara content).length ≤ 3 →
      inject_cta_into_content r content (JVal.dict kvs) "middle" =
        content ++ "\n\n"
          ++ ("<div class=\"wealthautomation-cta\">"
            ++ generate_cta_html r (JVal.dict kvs) ++ "</div>")) := by
  have hodd : (splitPara content).length % 2 = 1 := splitPara_length_odd content
  constructor
  · intro hgt
    have hmi : middleIndex (splitPara content).length % 2 = 1
        ∧ middleIndex (splitPara content).length < (splitPara content).length := by
      simp only [middleIndex]
      by_cases h2 : ((splitPara content).length / 2) % 2 = 0
      · rw [if_pos (by simpa using h2)]
        omega
      · rw [if_neg (by simpa using h2)]
        omega
    refine ⟨hmi.1, hmi.2, splitPara_delim_at_odd content _ hmi.1 hmi.2, ?_⟩
    simp only [inject_cta_into_content]
    rw [if_neg hcta, if_neg (by decide : ¬ ("middle" : String) = "end"), if_pos trivial,
      if_pos hgt]
  · intro hle
    simp only [inject_cta_into_content]
    rw [if_neg hcta, if_neg (by decide : ¬ ("middle" : String) = "end"), if_pos trivial,
      if_neg (by omega : ¬ 3 < (splitPara content).length)]

/-- C8 (code bug evidence): `get_all_categories` calls `set.update` on the
raw `categories` field, so a record whose `categories` field holds a
non-sequence value (here the number 3) raises `TypeError` instead of being
tolerated, contradicting the never-raise policy of the specification. -/
theorem C8_categories_raises :
    get_all_categories [JVal.dict [("categories", JVal.num 3)]] =
      Except.error "argument is not iterable" := rfl

lemma replaceChars_not_mem (c0 : Char) (rep : List Char) :
    ∀ (fuel : Nat) (l : List Char), (∀ c ∈ l, c ≠ c0) →
      replaceChars [c0] rep fuel l = l := by
  intro fuel
  induction fuel with
  | zero => intro l h; cases l <;> rfl
  | succ n ih =>
    intro l h
    cases l with
    | nil => rfl
    | cons a rest =>
      have ha : a ≠ c0 := h a (List.mem_cons_self a rest)
      simp only [replaceChars]
      rw [if_neg]
      · rw [ih rest (fun c hc => h c (List.mem_cons_of_mem a hc))]
      · simp only [List.isPrefixOf, Bool.and_eq_true, beq_iff_eq]
        intro hcond
        exact ha hcond.2.1.symm

lemma strip_char_not_mem (c0 : Char) :
    ∀ (fuel : Nat) (l : List Char), l.length ≤ fuel →
      ∀ c ∈ replaceChars [c0] [] fuel l, c ≠ c0 := by
  intro fuel
  induction fuel with
  | zero =>
    intro l hl c hc
    cases l with
    | nil => simp [replaceChars] at hc
    | cons a rest => simp at hl
  | succ n ih =>
    intro l hl c hc
    cases l with
    | nil => simp [replaceChars] at hc
    | cons a rest =>
      simp only [replaceChars] at hc
      by_cases ha : a = c0
      · rw [if_pos] at hc
        · simp at hc
          exact ih rest (by simpa using hl) c hc
        · simp [List.isPrefixOf, ha]
      · rw [if_neg] at hc
        · rcases List.mem_cons.mp hc with rfl | hc2
          · exact ha
          · exact ih rest (by simpa using hl) c hc2
        · simp only [List.isPrefixOf, Bool.and_eq_true, beq_iff_eq]
          intro hcond
          exact ha hcond.2.1.symm

lemma mem_replaceChars (pat rep : List Char) :
    ∀ (fuel : Nat) (l : List Char) (c : Char),
      c ∈ replaceChars pat rep fuel l → c ∈ rep ∨ c ∈ l := by
  intro fuel
  induction fuel with
  | zero =>
    intro l c h
    cases l with
    | nil => simp [replaceChars] at h
    | cons a rest => exact Or.inr h
  | succ n ih =>
    intro l c h
    cases l with
    | nil => simp [replaceChars] at h
    | cons a rest =>
      simp only [replaceChars] at h
      by_cases hcond : (!List.isEmpty pat && List.isPrefixOf pat (a :: rest)) = true
      · rw [if_pos hcond] at h
        rcases List.mem_append.mp h with h1 | h2
        · exact Or.inl h1
        · rcases ih _ c h2 with h3 | h4
          · exact Or.inl h3
          · exact Or.inr (List.mem_cons_of_mem a (List.mem_of_mem_drop h4))
      · rw [if_neg hcond] at h
        rcases List.mem_cons.mp h with rfl | h2
        · exact Or.inr (List.mem_cons_self _ _)
        · rcases ih rest c h2 with h3 | h4
          · exact Or.inl h3
          · exact Or.inr (List.mem_cons_of_mem a h4)

lemma safe_title_no_quote (content_title : String) :
    ∀ c ∈ (pyReplace (pyReplace content_title "\"" "") "," ";").data, c ≠ '"' := by
  intro c hc
  simp only [pyReplace] at hc
  rcases mem_replaceChars (",".data) (";".data) _ _ c hc with h1 | h2
  · intro he
    subst he
    simp at h1
  · exact strip_char_not_mem '"' content_title.data.length content_title.data
      (le_refl _) c h2

lemma safe_title_fixed (content_title : String) :
    pyReplace (pyReplace (pyReplace content_title "\"" "") "," ";") "\"" "\"\"" =
      pyReplace (pyReplace content_title "\"" "") "," ";" := by
  conv_rhs => rw [show pyReplace (pyReplace content_title "\"" "") "," ";" =
    String.mk (pyReplace (pyReplace content_title "\"" "") "," ";").data from rfl]
  simp only [pyReplace]
  congr 1
  exact replaceChars_not_mem '"' ("\"\"".data) _ _ (safe_title_no_quote content_title)

/-- C9 counterexample: for a content title containing an internal double
quote, the line written by the source differs from the claimed format
(quoted title with internal double quotes doubled): the source strips the
quotes before the doubling step, so nothing is doubled. -/
theorem C9_counterexample :
    log_usage_line "2026-01-01T00:00:00" (JVal.dict
        [("id", JVal.str "o1"), ("name", JVal.str "Offer")]) "say \"hi\", ok" "blog"
      ≠ some (usage_line_claim "2026-01-01T00:00:00" "o1" "Offer" "blog" "say \"hi\", ok") := by
  decide

/-- C9 (amended): the usage record is a comma-separated line of the
timestamp, the offer id, the offer name wrapped in double quotes with
internal double quotes doubled, the content type, and the content title
wrapped in double quotes with internal double quotes removed and commas
replaced by semicolons (the subsequent quote-doubling on the title is a
no-op because its quotes were already stripped). -/
theorem C9_usage_line_amended (ts content_title content_type : String)
    (kvs : List (String × JVal)) (i n : String)
    (hid : dictGet kvs "id" = some (JVal.str i))
    (hname : dictGet kvs "name" = some (JVal.str n)) :
    log_usage_line ts (JVal.dict kvs) content_title content_type =
      some (usage_line_amended ts i n content_type content_title) := by
  simp only [log_usage_line, usage_line_amended, dictGetD, hid, hname, Option.getD, pyStr]
  rw [safe_title_fixed]

/-- Witness for C2 at a concrete catalog: a single offer with priority 5
scores 5 and is returned. -/
theorem C2_witness :
    match_content_to_offer 0 [JVal.dict [("priority", JVal.num 5)]] "" "" =
      some (JVal.dict [("priority", JVal.num 5)]) :=
  C2_best_offer_returned [JVal.dict [("priority", JVal.num 5)]] "" ""
    (JVal.dict [("priority", JVal.num 5)]) 5 (List.cons_ne_nil _ _) rfl rfl (by decide) 0

/-- Witness for C3 at a concrete catalog: a single offer with priority 0
scores 0, and selection still returns a member of the catalog. -/
theorem C3_witness :
    ∃ o, match_content_to_offer 0 [JVal.dict [("priority", JVal.num 0)]] "" "" = some o
      ∧ o ∈ [JVal.dict [("priority", JVal.num 0)]] :=
  (C3_empty_none_and_fallback [JVal.dict [("priority", JVal.num 0)]] "" "" 0
    (List.cons_ne_nil _ _) rfl (by decide)).2

/-- Witness for C4 at a concrete document mixing a malformed entry with a
valid record. -/
theorem C4_witness :
    List.Sublist
      (load_offers (some (JVal.dict [("offers",
        JVal.list [JVal.str "bad", JVal.dict [("id", JVal.str "a")]])])))
      [JVal.str "bad", JVal.dict [("id", JVal.str "a")]] :=
  ((C4_load_never_throws (some (JVal.dict [("offers",
      JVal.list [JVal.str "bad", JVal.dict [("id", JVal.str "a")]])]))).2
    [("offers", JVal.list [JVal.str "bad", JVal.dict [("id", JVal.str "a")]])]
    [JVal.str "bad", JVal.dict [("id", JVal.str "a")]] rfl rfl).1

/-- Witness for C5 at a concrete two-paragraph content: the CTA lands
immediately after the first closing-paragraph delimiter. -/
theorem C5_witness :
    inject_cta_into_content 0 "<p>A</p><p>B</p>"
        (JVal.dict [("ctaTemplates", JVal.list [JVal.str "Go"])]) "middle" =
      "<p>A</p><div class=\"wealthautomation-cta\">Go</div><p>B</p>" := by
  have h := (C5_middle_injection 0 "<p>A</p><p>B</p>"
    [("ctaTemplates", JVal.list [JVal.str "Go"])] (by decide)).1 (by decide)
  rw [h.2.2.2]
  rfl

/-- Witness for C6 at the concrete example of the specification: a URL that
already contains `?` gets `&` as separator. -/
theorem C6_witness :
    generate_cta_html 0 (JVal.dict [("url", JVal.str "https://x.com/?a=1"),
        ("id", JVal.str "offer1"),
        ("ctaTemplates", JVal.list [JVal.str "<a href=\"\x7b\x7burl\x7d\x7d\">Go</a>"])]) =
      "<a href=\"https://x.com/?a=1&utm_source=wealthautomation&utm_medium=blog&utm_campaign=offer1\">Go</a>" := by
  have h := (C6_tracked_url [("url", JVal.str "https://x.com/?a=1"),
    ("id", JVal.str "offer1"),
    ("ctaTemplates", JVal.list [JVal.str "<a href=\"\x7b\x7burl\x7d\x7d\">Go</a>"])]
    0).2.2.2.2.2.2 "<a href=\"\x7b\x7burl\x7d\x7d\">Go</a>" [] rfl
  rw [h]
  rfl

/-- Witness for C7 at a concrete offer with no `ctaTemplates` field. -/
theorem C7_witness :
    generate_cta_html 0 (JVal.dict []) = "" ∧
    inject_cta_into_content 0 "abc" (JVal.dict []) "middle" = "abc" :=
  C7_no_templates_noop 0 [] "abc" "middle" rfl

/-- Witness for the amended C9 at a concrete title containing a comma and a
double quote. -/
theorem C9_witness :
    log_usage_line "2026-01-01T00:00:00" (JVal.dict
        [("id", JVal.str "o1"), ("name", JVal.str "Nm")]) "a,b \"q\"" "blog" =
      some (usage_line_amended "2026-01-01T00:00:00" "o1" "Nm" "blog" "a,b \"q\"") :=
  C9_usage_line_amended "2026-01-01T00:00:00" "a,b \"q\"" "blog"
    [("id", JVal.str "o1"), ("name", JVal.str "Nm")] "o1" "Nm" rfl rfl

/-- Witness for C10 at a concrete record with no priority field. -/
theorem C10_witness :
    1 ≤ score_offer (JVal.dict []) "" "" :=
  (C10_default_priority_no_fallback [JVal.dict []] "" "" []
    (List.mem_cons_self _ _) rfl).1
